import Mathlib

/-!
Verification development for the playlist-to-MP3 GUI (`playlist_mp3_gui.py`).

The source program is a tkinter GUI around the external downloader tool
`yt-dlp`.  We shallowly embed the parts of the program with logical content:

* the quality-label mapping and the external command line built by
  `_run_download`;
* the progress clamp `_progress_set_percent` and the progress-bar lifecycle;
* the configuration loader `load_config` / writer `save_config` and the
  merge performed when persisting the output directory;
* the progress-line scraper `_parse_progress_line` (the regex
  `\[download\]\s*(\d+(?:\.\d+)?)\s*%` under `re.search` semantics);
* the GUI start/stop/finished state machine (button states and the
  `download_running` flag);
* the worker loop of `_run_download` interleaved with `_stop_download`,
  instrumented with a count of `terminate()` requests sent to the child.

Python floats are modelled as rationals (`ℚ`); fallible operations return
`Except`/`Option`; the file system and the spawn outcome are explicit
parameters.
-/

namespace PlaylistMP3

/-! ### JSON values and configuration (`load_config`, `save_config`) -/

/-- JSON values, as produced by `json.load`. -/
inductive Json where
  | null : Json
  | bool (b : Bool) : Json
  | num (q : ℚ) : Json
  | str (s : String) : Json
  | arr (elems : List Json) : Json
  | obj (fields : List (String × Json)) : Json

/-- Outcome of opening the config file and running `json.load` on it:
either one of the exceptions Python can raise, or a parsed value. -/
inductive ReadOutcome where
  | fileNotFoundError : ReadOutcome
  | jsonDecodeError : ReadOutcome
  | otherError : ReadOutcome
  | ok (j : Json) : ReadOutcome

/-- Embedding of `load_config`: `try: return json.load(open(...)) except (FileNotFoundError,
JSONDecodeError): return {}`.  Exceptions other than the two caught ones
propagate to the caller (`Except.error`). -/
def load_config : ReadOutcome → Except Unit Json
  | .fileNotFoundError => .ok (.obj [])
  | .jsonDecodeError => .ok (.obj [])
  | .otherError => .error ()
  | .ok j => .ok j

/-- Look a key up in a JSON-object field list, Python-`dict`-style
(the last binding for a key wins, as after `dict` construction keys are
unique; we read the first match like `List.lookup`). -/
def jsonLookup (k : String) : List (String × Json) → Option Json
  | [] => none
  | (k', v) :: rest => if k' = k then some v else jsonLookup k rest

/-- Insert/overwrite one key in a JSON-object field list, preserving the
position of an existing key, appending a new key at the end — the behaviour
of Python `dict.__or__` for a single-key right operand. -/
def jsonInsert (l : List (String × Json)) (k : String) (v : Json) :
    List (String × Json) :=
  match l with
  | [] => [(k, v)]
  | (k', v') :: rest =>
    if k' = k then (k', v) :: rest else (k', v') :: jsonInsert rest k v

/-- The merge `load_config() | {"output_dir": path}` — the dictionary written back by
`save_config` in `_browse` and `_start_download`. -/
def persistOutputDir (cfg : List (String × Json)) (path : String) :
    List (String × Json) :=
  jsonInsert cfg "output_dir" (.str path)

/-! ### Quality mapping and command construction (`_run_download`) -/

/-- The `quality_map` dictionary of `_run_download`. -/
def quality_map : List (String × String) :=
  [("128 kbps", "128K"),
   ("192 kbps", "192K"),
   ("256 kbps", "256K"),
   ("320 kbps", "320K"),
   ("Best (VBR)", "0")]

/-- Association-list lookup with `=` on strings (Python `dict.get`). -/
def assocLookup (k : String) : List (String × String) → Option String
  | [] => none
  | (k', v) :: rest => if k' = k then some v else assocLookup k rest

/-- The lookup `quality_map.get(bitrate, "320K")`. -/
def qualityOf (bitrate : String) : String :=
  (assocLookup bitrate quality_map).getD "320K"

/-- Embedding of `os.path.join` for a two-component POSIX path, as used for the output
template. -/
def pathJoin (a b : String) : String :=
  if b.startsWith "/" then b
  else if a = "" ∨ a.endsWith "/" then a ++ b
  else a ++ "/" ++ b

/-- The literal output-filename template of `_run_download` (before joining
with the output directory). -/
def outTemplateName : String :=
  "%(playlist_index)02d - %(artist,Unknown)s - %(title)s.%(ext)s"

/-- The template `out_tmpl = os.path.join(output_dir, ...)`. -/
def out_tmpl (output_dir : String) : String :=
  pathJoin output_dir outTemplateName

/-- Embedding of `get_js_runtime_args()`: Deno needs no flag; otherwise select node,
then bun; no flag when none is available.  Availability of each runtime on
`PATH` is a parameter. -/
def get_js_runtime_args (deno node bun : Bool) : List String :=
  if deno then []
  else if node then ["--js-runtimes", "node"]
  else if bun then ["--js-runtimes", "bun"]
  else []

/-- The argument list `cmd` built by `_run_download`:
`list(self.yt_dlp_cmd) + get_js_runtime_args() + [...]`. -/
def buildCmd (yt_dlp_cmd jsArgs : List String)
    (url output_dir bitrate : String) : List String :=
  yt_dlp_cmd ++ jsArgs ++
    ["-x",
     "--audio-format", "mp3",
     "--audio-quality", qualityOf bitrate,
     "-o", out_tmpl output_dir,
     "--embed-metadata",
     "--newline",
     "--progress",
     "--no-mtime",
     url]

/-! ### Progress bar (`_progress_reset`, `_progress_set_percent`,
`_progress_done`) -/

/-- Progress-bar mode: tkinter `indeterminate` or `determinate`. -/
inductive ProgressMode where
  | indeterminate : ProgressMode
  | determinate : ProgressMode
  deriving DecidableEq

/-- Progress-bar state: the mode and the `DoubleVar` value. -/
structure Progress where
  mode : ProgressMode
  value : ℚ
  deriving DecidableEq

/-- The initial progress state: `tk.DoubleVar(value=0.0)`, determinate bar. -/
def progressInit : Progress := ⟨.determinate, 0⟩

/-- Embedding of `_progress_reset`: switch to indeterminate animation; the variable value
is not touched. -/
def progress_reset (s : Progress) : Progress :=
  { s with mode := .indeterminate }

/-- Embedding of `_progress_set_percent(value)`: stop animation, switch to determinate and
store `max(0.0, min(100.0, value))`. -/
def progress_set_percent (_s : Progress) (value : ℚ) : Progress :=
  ⟨.determinate, max 0 (min 100 value)⟩

/-- Embedding of `_progress_done`: stop animation, determinate, value `100.0`. -/
def progress_done (_s : Progress) : Progress :=
  ⟨.determinate, 100⟩

/-- The operations that ever touch the progress bar. -/
inductive ProgressOp where
  | reset : ProgressOp
  | setPercent (v : ℚ) : ProgressOp
  | done : ProgressOp

/-- Apply one progress operation. -/
def progressStep (s : Progress) : ProgressOp → Progress
  | .reset => progress_reset s
  | .setPercent v => progress_set_percent s v
  | .done => progress_done s

/-- Run a sequence of progress operations from the initial state. -/
def progressRun (ops : List ProgressOp) : Progress :=
  ops.foldl progressStep progressInit

/-! ### Spawn outcome and session failure (`_run_download` / `_download_finished`) -/

/-- Outcome of the `subprocess.Popen` call in `_run_download`: a process
with its streamed output lines and eventual exit code, or one of the
exceptions the `try` block catches. -/
inductive SpawnOutcome where
  | spawned (lines : List String) (exitCode : Int) : SpawnOutcome
  | fileNotFoundError : SpawnOutcome
  | otherError (msg : String) : SpawnOutcome

/-- What one call of `_run_download` leaves behind: the `returncode` handed
to `_download_finished`, whether a child process was spawned, how many spawn
attempts were made, and the final log line of `_download_finished`. -/
structure RunResult where
  returncode : Int
  processSpawned : Bool
  spawnAttempts : Nat
  finishedMessage : String
  deriving DecidableEq

/-- The final log line of `_download_finished(returncode)`. -/
def download_finished_message (rc : Int) : String :=
  if rc = 0 then "Download complete."
  else "Download failed (exit code " ++ toString rc ++ ")."

/-- Embedding of `_run_download`, abstracted over the spawn outcome: `FileNotFoundError`
sets `returncode = -1` (no process exists), any other exception also sets
`returncode = -1`; a spawned process contributes its own exit code.  The
`finally` block always reports the run via `_download_finished`. -/
def run_download (spawn : SpawnOutcome) : RunResult :=
  match spawn with
  | .spawned _ code => ⟨code, true, 1, download_finished_message code⟩
  | .fileNotFoundError => ⟨-1, false, 1, download_finished_message (-1)⟩
  | .otherError _ => ⟨-1, false, 1, download_finished_message (-1)⟩

/-! ### GUI start/stop state machine (`_start_download`, `_stop_download`,
`_download_finished`) -/

/-- tkinter widget state (`tk.NORMAL` / `tk.DISABLED`). -/
inductive BtnState where
  | normal : BtnState
  | disabled : BtnState
  deriving DecidableEq

/-- The GUI state the start/stop logic reads and writes: the
`download_running` flag and the two button states. -/
structure UIState where
  download_running : Bool
  btnDownload : BtnState
  btnStop : BtnState
  deriving DecidableEq

/-- State after `__init__`/`_build_ui`: not running, download button
enabled, stop button disabled. -/
def uiInit : UIState := ⟨false, .normal, .disabled⟩

/-- Embedding of `_start_download`.  The four input validations (missing URL,
non-YouTube URL, missing folder, non-directory folder) each show a message
box and return with the state untouched; their combined outcome is the
boolean parameter, since the property verified here holds either way.  When
validation passes, the method sets `download_running = True`, disables the
download button, enables the stop button and launches the worker thread. -/
def start_download (s : UIState) (inputsValid : Bool) : UIState :=
  if inputsValid then ⟨true, .disabled, .normal⟩ else s

/-- A click on the download button: tkinter does not invoke the command of
a disabled button. -/
def startClick (s : UIState) (inputsValid : Bool) : UIState :=
  if s.btnDownload = .disabled then s else start_download s inputsValid

/-- Embedding of `_stop_download`: clears `download_running`; button states are left for
`_download_finished`. -/
def stop_download_ui (s : UIState) : UIState :=
  { s with download_running := false }

/-- A click on the stop button. -/
def stopClick (s : UIState) : UIState :=
  if s.btnStop = .disabled then s else stop_download_ui s

/-- Embedding of `_download_finished`: clears the flag, re-enables the download button,
disables the stop button. -/
def download_finished_ui (_s : UIState) : UIState :=
  ⟨false, .normal, .disabled⟩

/-- The GUI events that touch this state. -/
inductive UIEvent where
  | startClick (inputsValid : Bool) : UIEvent
  | stopClick : UIEvent
  | finished : UIEvent

/-- One GUI event. -/
def uiStep (s : UIState) : UIEvent → UIState
  | .startClick v => startClick s v
  | .stopClick => stopClick s
  | .finished => download_finished_ui s

/-- Run the GUI from its initial state through a sequence of events. -/
def uiRun (evs : List UIEvent) : UIState :=
  evs.foldl uiStep uiInit

/-! ### Worker loop interleaved with cancellation (`_run_download` loop,
`_stop_download`), instrumented with the number of `terminate()` calls -/

/-- State shared between the worker thread and the UI thread once the child
process is spawned, instrumented with a count of termination requests sent
to the child.  `procAlive` is `poll() is None`; `workerReading` is whether
the worker is still inside its `for line in stdout` loop; `pendingLines`
are output lines the child has produced that the worker has not read yet. -/
structure WorkerState where
  download_running : Bool
  procAlive : Bool
  termRequests : Nat
  workerReading : Bool
  pendingLines : List String
  deriving DecidableEq

/-- The session state the spec's data model names: the `running` flag and
the process handle's liveness. -/
structure SessionView where
  running : Bool
  procAlive : Bool
  deriving DecidableEq

/-- Project the session state out of the instrumented worker state. -/
def sessionView (s : WorkerState) : SessionView :=
  ⟨s.download_running, s.procAlive⟩

/-- Embedding of `_stop_download`: set `download_running = False`; then
`if self.process and self.process.poll() is None: self.process.terminate()`. -/
def stop_download (s : WorkerState) : WorkerState :=
  { s with download_running := false,
           termRequests := s.termRequests + (if s.procAlive then 1 else 0) }

/-- One iteration of the worker's `for line in self.process.stdout` loop:
a pending line is consumed; if `download_running` was cleared meanwhile the
worker calls `terminate()` and breaks out of the loop, otherwise it hands
the line to the UI thread (logging/progress, not tracked here). -/
def workerReadLine (s : WorkerState) : WorkerState :=
  if s.workerReading then
    match s.pendingLines with
    | [] => s
    | _ :: rest =>
      if s.download_running then { s with pendingLines := rest }
      else { s with pendingLines := rest, workerReading := false,
                    termRequests := s.termRequests + 1 }
  else s

/-- The child process exits (`poll()` stops being `None`). -/
def procExit (s : WorkerState) : WorkerState :=
  { s with procAlive := false }

/-- Interleaved events: a cancel request from the UI thread, a worker loop
iteration, or the child exiting. -/
inductive DLEvent where
  | stopClick : DLEvent
  | readLine : DLEvent
  | procExit : DLEvent

/-- One interleaving step. -/
def dlStep (s : WorkerState) : DLEvent → WorkerState
  | .stopClick => stop_download s
  | .readLine => workerReadLine s
  | .procExit => procExit s

/-- Run an interleaving from a given state. -/
def dlRun (s : WorkerState) (evs : List DLEvent) : WorkerState :=
  evs.foldl dlStep s

/-- Whether an event is a cancel request. -/
def isStop : DLEvent → Bool
  | .stopClick => true
  | _ => false

/-- Number of cancel requests in an interleaving. -/
def countStops : List DLEvent → Nat
  | [] => 0
  | e :: evs => (if isStop e then 1 else 0) + countStops evs

/-- A freshly spawned running session with one buffered output line:
the state right after `Popen` succeeds while the child has already emitted
a line that the worker has not read yet. -/
def spawnedState : WorkerState :=
  ⟨true, true, 0, true, ["[download]  10.0% of 5.00MiB"]⟩

/-! ### Progress-line parsing (`_parse_progress_line`)

The method runs `re.search(r"\[download\]\s*(\d+(?:\.\d+)?)\s*%", line)` and
returns `float(m.group(1))` on a match, `None` otherwise.  We embed the
search as a deterministic matcher tried at every start position, left to
right, which is exactly `re.search`'s leftmost-match semantics for this
pattern (the pattern admits no alternative match at a fixed start position:
each greedy repetition is followed by a character its element cannot
match). -/

/-- The character class `\s` of Python `re` on `str` patterns: Unicode
whitespace — tab through carriage return, the file/group/record/unit
separators and the space, next line (U+0085), no-break space (U+00A0),
Ogham space mark (U+1680), the U+2000–U+200A spaces, line and paragraph
separator, narrow no-break space, medium mathematical space and
ideographic space. -/
def isSpaceChar (c : Char) : Bool :=
  (9 ≤ c.toNat ∧ c.toNat ≤ 13) ∨ (28 ≤ c.toNat ∧ c.toNat ≤ 32) ∨
    c.toNat = 0x85 ∨ c.toNat = 0xA0 ∨ c.toNat = 0x1680 ∨
    (0x2000 ≤ c.toNat ∧ c.toNat ≤ 0x200A) ∨ c.toNat = 0x2028 ∨
    c.toNat = 0x2029 ∨ c.toNat = 0x202F ∨ c.toNat = 0x205F ∨
    c.toNat = 0x3000

/-- The zero digits of the Unicode decimal-digit runs (general category
Nd, Unicode 14.0, as used by CPython 3.11's `re` and `float`): every Nd
character lies in a run of ten consecutive codepoints carrying the digit
values 0–9, and this list holds the first codepoint of each run. -/
def ndRunStarts : List Nat :=
  [0x30, 0x660, 0x6F0, 0x7C0, 0x966, 0x9E6, 0xA66, 0xAE6, 0xB66, 0xBE6,
   0xC66, 0xCE6, 0xD66, 0xDE6, 0xE50, 0xED0, 0xF20, 0x1040, 0x1090,
   0x17E0, 0x1810, 0x1946, 0x19D0, 0x1A80, 0x1A90, 0x1B50, 0x1BB0,
   0x1C40, 0x1C50, 0xA620, 0xA8D0, 0xA900, 0xA9D0, 0xA9F0, 0xAA50,
   0xABF0, 0xFF10, 0x104A0, 0x10D30, 0x11066, 0x110F0, 0x11136, 0x111D0,
   0x112F0, 0x11450, 0x114D0, 0x11650, 0x116C0, 0x11730, 0x118E0,
   0x11950, 0x11C50, 0x11D50, 0x11DA0, 0x16A60, 0x16AC0, 0x16B50,
   0x1D7CE, 0x1D7D8, 0x1D7E2, 0x1D7EC, 0x1D7F6, 0x1E140, 0x1E2F0,
   0x1E950, 0x1FBF0]

/-- The character class `\d` of Python `re` on `str` patterns: any Unicode
decimal digit (category Nd). -/
def isDigitChar (c : Char) : Bool :=
  ndRunStarts.any fun s => s ≤ c.toNat && c.toNat ≤ s + 9

/-- Decimal value of a digit character — the per-character value `float`
uses when converting the captured group. -/
def digitVal (c : Char) : Nat :=
  match ndRunStarts.find? (fun s => s ≤ c.toNat && c.toNat ≤ s + 9) with
  | some s => c.toNat - s
  | none => 0

/-- The literal `[download]` tag of the pattern. -/
def dlTag : List Char := "[download]".toList

/-- Strip an expected literal prefix, returning the remainder. -/
def dropPrefixOf : List Char → List Char → Option (List Char)
  | [], l => some l
  | _ :: _, [] => none
  | p :: ps, c :: cs => if p = c then dropPrefixOf ps cs else none

/-- The trailing `\s*%` of the pattern: skip whitespace, require `%`. -/
def tailPercent (r : List Char) : Bool :=
  match r.dropWhile isSpaceChar with
  | [] => false
  | c :: _ => c = '%'

/-- Try the pattern at the start of `l`: literal `[download]`, then `\s*`,
then the captured number `\d+(?:\.\d+)?`, then `\s*%`.  Returns the integer
digits and the fraction digits of the capture.  When the optional fraction
fails (no digit after the dot, or no `\s*%` after the fraction digits) the
regex engine backtracks to the fractionless reading, which then also fails
because the character after the integer digits is a dot — so `none` is
returned directly. -/
def tryMatchAt (l : List Char) : Option (List Char × List Char) :=
  match dropPrefixOf dlTag l with
  | none => none
  | some r0 =>
    let r1 := r0.dropWhile isSpaceChar
    let ds := r1.takeWhile isDigitChar
    if ds.isEmpty then none
    else
      match r1.dropWhile isDigitChar with
      | [] => none
      | c :: r3 =>
        if c = '.' then
          let fs := r3.takeWhile isDigitChar
          if fs.isEmpty then none
          else if tailPercent (r3.dropWhile isDigitChar) then some (ds, fs)
          else none
        else if tailPercent (c :: r3) then some (ds, []) else none

/-- Embedding of `re.search`: try the pattern at each start position, left to right. -/
def searchMatch : List Char → Option (List Char × List Char)
  | [] => none
  | c :: cs =>
    match tryMatchAt (c :: cs) with
    | some r => some r
    | none => searchMatch cs

/-- Numeric value of a digit string, each character contributing its
decimal value. -/
def digitsToNat (ds : List Char) : Nat :=
  ds.foldl (fun acc c => acc * 10 + digitVal c) 0

/-- Embedding of `float(m.group(1))`: the rational value of `ds.fs`. -/
def ratOfMatch (ds fs : List Char) : ℚ :=
  (digitsToNat ds : ℚ) + (digitsToNat fs : ℚ) / (10 ^ fs.length : ℚ)

/-- Embedding of `_parse_progress_line(line)`. -/
def parse_progress_line (line : String) : Option ℚ :=
  (searchMatch line.toList).map fun p => ratOfMatch p.1 p.2

/-- The spec's pattern `[download] <number>%`, stated independently of the
matcher: the line contains, in order, the literal tag, optional whitespace,
a digit string optionally followed by a dot and more digits, optional
whitespace and a percent sign. -/
def matchesDownloadPattern (l : List Char) : Prop :=
  ∃ pre ws1 ds fs ws2 post : List Char,
    l = pre ++ dlTag ++ ws1 ++ ds ++ fs ++ ws2 ++ '%' :: post ∧
    (∀ c ∈ ws1, isSpaceChar c) ∧
    (∀ c ∈ ws2, isSpaceChar c) ∧
    ds ≠ [] ∧ (∀ c ∈ ds, isDigitChar c) ∧
    (fs = [] ∨ ∃ fds, fs = '.' :: fds ∧ fds ≠ [] ∧ ∀ c ∈ fds, isDigitChar c)

/-- An occurrence of the spec's pattern in the line whose captured number
denotes the value `v`: the decomposition of `matchesDownloadPattern`
together with the numeric value of the digit strings. -/
def matchesValueAt (l : List Char) (v : ℚ) : Prop :=
  ∃ pre ws1 ds fs ws2 post : List Char,
    l = pre ++ dlTag ++ ws1 ++ ds ++ fs ++ ws2 ++ '%' :: post ∧
    (∀ c ∈ ws1, isSpaceChar c) ∧
    (∀ c ∈ ws2, isSpaceChar c) ∧
    ds ≠ [] ∧ (∀ c ∈ ds, isDigitChar c) ∧
    ((fs = [] ∧ v = ratOfMatch ds []) ∨
     (∃ fds, fs = '.' :: fds ∧ fds ≠ [] ∧ (∀ c ∈ fds, isDigitChar c) ∧
       v = ratOfMatch ds fds))

/-! ### Auxiliary definitions for the invariant proofs -/

/-- GUI invariant: while a download is running the download button is
disabled. -/
def uiInv (s : UIState) : Prop :=
  s.download_running = true → s.btnDownload = .disabled

/-- Bound on future termination requests from the worker: the requests
already sent plus one potential request from the still-reading worker. -/
def termPotential (s : WorkerState) : Nat :=
  s.termRequests + (if s.workerReading then 1 else 0)

/-! ## Theorems -/

/-! ### Helper lemmas -/

theorem jsonLookup_jsonInsert_ne (l : List (String × Json)) (k k' : String)
    (v : Json) (h : k' ≠ k) :
    jsonLookup k (jsonInsert l k' v) = jsonLookup k l := by
  induction l with
  | nil => simp [jsonInsert, jsonLookup, h]
  | cons a rest ih =>
    obtain ⟨ka, va⟩ := a
    simp only [jsonInsert]
    by_cases hk' : ka = k'
    · rw [if_pos hk']
      subst hk'
      simp only [jsonLookup]
      rw [if_neg h, if_neg h]
    · rw [if_neg hk']
      simp only [jsonLookup]
      by_cases hak : ka = k
      · rw [if_pos hak, if_pos hak]
      · rw [if_neg hak, if_neg hak, ih]

theorem uiInv_step (s : UIState) (e : UIEvent) (h : uiInv s) :
    uiInv (uiStep s e) := by
  cases e with
  | startClick v =>
    simp only [uiStep, startClick]
    split
    · exact h
    · cases v with
      | false => simpa [start_download] using h
      | true => simp [start_download, uiInv]
  | stopClick =>
    simp only [uiStep, stopClick]
    split
    · exact h
    · simp [stop_download_ui, uiInv]
  | finished => simp [uiStep, download_finished_ui, uiInv]

theorem uiInv_run (evs : List UIEvent) : uiInv (uiRun evs) := by
  have key : ∀ (l : List UIEvent) (s : UIState), uiInv s →
      uiInv (l.foldl uiStep s) := by
    intro l
    induction l with
    | nil => intro s h; exact h
    | cons e rest ih => intro s h; exact ih _ (uiInv_step s e h)
  exact key evs uiInit (by simp [uiInv, uiInit])

theorem termPotential_step (s : WorkerState) (e : DLEvent) :
    termPotential (dlStep s e) ≤ termPotential s + (if isStop e then 1 else 0) := by
  cases e with
  | stopClick =>
    by_cases hp : s.procAlive <;> by_cases hw : s.workerReading <;>
      simp [dlStep, stop_download, termPotential, isStop, hp, hw]
  | readLine =>
    simp only [dlStep, workerReadLine, isStop]
    by_cases hw : s.workerReading = true
    · rw [if_pos hw]
      cases hpl : s.pendingLines with
      | nil => simp [termPotential]
      | cons a rest =>
        by_cases hr : s.download_running = true
        · simp [termPotential, hr]
        · simp [termPotential, hr, hw]
    · rw [if_neg hw]; simp [termPotential]
  | procExit => simp [dlStep, procExit, termPotential, isStop]

theorem termPotential_run (evs : List DLEvent) (s : WorkerState) :
    termPotential (dlRun s evs) ≤ termPotential s + countStops evs := by
  induction evs generalizing s with
  | nil => simp [dlRun, countStops]
  | cons e rest ih =>
    have h1 := termPotential_step s e
    have h2 := ih (dlStep s e)
    have h3 : termPotential (dlStep s e) + countStops rest ≤
        termPotential s + ((if isStop e then 1 else 0) + countStops rest) := by
      rw [← Nat.add_assoc]
      exact Nat.add_le_add_right h1 _
    have h4 := le_trans h2 h3
    simpa [dlRun, countStops] using h4

/-! ### Claim theorems -/

/-- Claim C2: in every reachable GUI state with a session running
(`download_running = true`), a further start request (a click on the
download button) is a no-op: the state, and with it the running session,
is unchanged.  This holds because `_start_download` disables the download
button for the whole run, so tkinter never invokes the command again
until `_download_finished` re-enables it. -/
theorem second_start_is_noop (evs : List UIEvent) (v : Bool)
    (h : (uiRun evs).download_running = true) :
    uiStep (uiRun evs) (.startClick v) = uiRun evs := by
  have hb := uiInv_run evs h
  simp [uiStep, startClick, hb]

theorem second_start_is_noop_witness :
    uiStep (uiRun [UIEvent.startClick true]) (.startClick true)
      = uiRun [UIEvent.startClick true] :=
  second_start_is_noop [UIEvent.startClick true] true (by decide)

/-- Claim C3, counterexample to "the child process receives a termination
request at most once": from a freshly spawned running session with one
buffered output line, a single cancel request followed by one worker-loop
iteration delivers two `terminate()` calls — one from `_stop_download`,
one from the worker's `if not self.download_running` branch. -/
theorem terminate_at_most_once_cx :
    (dlRun spawnedState [DLEvent.stopClick, DLEvent.readLine]).download_running
        = false ∧
    ¬ (dlRun spawnedState
        [DLEvent.stopClick, DLEvent.readLine]).termRequests ≤ 1 := by
  decide

/-- Claim C3 (amended): cancelling sets `running = false`; a cancel while
the process is alive sends it one termination request, and in any
interleaving with at most one cancel request the child receives at most
two termination requests (one from the cancel, at most one more from the
worker loop, which terminates at most once because it breaks out of its
loop); cancel is idempotent on the session state (`running` and process
liveness). -/
theorem stop_download_amended :
    (∀ s, (stop_download s).download_running = false) ∧
    (∀ s, s.procAlive = true →
      (stop_download s).termRequests = s.termRequests + 1) ∧
    (∀ s, sessionView (stop_download (stop_download s)) =
      sessionView (stop_download s)) ∧
    (∀ (s : WorkerState) (evs : List DLEvent),
      s.termRequests = 0 → s.workerReading = true → countStops evs ≤ 1 →
      (dlRun s evs).termRequests ≤ 2) := by
  refine ⟨fun s => rfl, fun s hp => by simp [stop_download, hp],
    fun s => by simp [sessionView, stop_download], ?_⟩
  intro s evs h0 hw hc
  have h := termPotential_run evs s
  have hs : termPotential s = 1 := by simp [termPotential, h0, hw]
  have hle : (dlRun s evs).termRequests ≤ termPotential (dlRun s evs) :=
    Nat.le_add_right _ _
  have hall := le_trans hle h
  rw [hs] at hall
  omega

theorem stop_download_amended_witness :
    (stop_download spawnedState).termRequests = spawnedState.termRequests + 1 ∧
    (dlRun spawnedState [DLEvent.stopClick, DLEvent.readLine]).termRequests ≤ 2 :=
  ⟨stop_download_amended.2.1 spawnedState rfl,
   stop_download_amended.2.2.2 spawnedState [DLEvent.stopClick, DLEvent.readLine]
     rfl rfl (by decide)⟩

/-- Claim C4: the quality mapping sends "128 kbps" to "128K", "192 kbps"
to "192K", "256 kbps" to "256K", "320 kbps" to "320K" and "Best (VBR)"
to "0". -/
theorem quality_map_spec :
    qualityOf "128 kbps" = "128K" ∧ qualityOf "192 kbps" = "192K" ∧
    qualityOf "256 kbps" = "256K" ∧ qualityOf "320 kbps" = "320K" ∧
    qualityOf "Best (VBR)" = "0" :=
  ⟨rfl, rfl, rfl, rfl, rfl⟩

/-- Claim C9: any bitrate label other than the five recognized ones falls
back to the default audio-quality code "320K" (`quality_map.get(bitrate,
"320K")`). -/
theorem qualityOf_default (b : String)
    (h1 : b ≠ "128 kbps") (h2 : b ≠ "192 kbps") (h3 : b ≠ "256 kbps")
    (h4 : b ≠ "320 kbps") (h5 : b ≠ "Best (VBR)") :
    qualityOf b = "320K" := by
  simp only [qualityOf, quality_map, assocLookup]
  rw [if_neg (Ne.symm h1), if_neg (Ne.symm h2), if_neg (Ne.symm h3),
    if_neg (Ne.symm h4), if_neg (Ne.symm h5)]
  rfl

theorem qualityOf_default_witness : qualityOf "64 kbps" = "320K" :=
  qualityOf_default "64 kbps" (by decide) (by decide) (by decide)
    (by decide) (by decide)

/-- Claim C5: when `subprocess.Popen` raises `FileNotFoundError`, the run
fails immediately with the distinguished code `-1`, no process is spawned,
exactly one spawn attempt is made (no retry), and `_download_finished`
reports the run as a failure. -/
theorem tool_not_found_spec :
    run_download .fileNotFoundError =
      ⟨-1, false, 1, "Download failed (exit code -1)."⟩ ∧
    (run_download .fileNotFoundError).returncode ≠ 0 := by
  refine ⟨?_, by decide⟩
  rfl

/-- Claim C6: `load_config` returns the empty dictionary, raising nothing,
when the file is absent (`FileNotFoundError`) or not valid JSON
(`JSONDecodeError`), and returns the parsed value otherwise. -/
theorem load_config_spec :
    load_config .fileNotFoundError = .ok (.obj []) ∧
    load_config .jsonDecodeError = .ok (.obj []) ∧
    ∀ j, load_config (.ok j) = .ok j :=
  ⟨rfl, rfl, fun _ => rfl⟩

/-- Claim C7: the argument list is exactly the tool command, then the
optional JS-runtime selector arguments (empty, or a selector flag naming
node or bun), then `-x`, `--audio-format mp3`, `--audio-quality <code>`,
`-o <template>`, `--embed-metadata`, `--newline`, `--progress`,
`--no-mtime`, and the URL, where the template joins the output directory
with the 2-digit zero-padded playlist index, artist defaulting to
"Unknown", title, and extension. -/
theorem run_download_cmd_spec :
    (∀ (tool jsArgs : List String) (url output_dir bitrate : String),
      buildCmd tool jsArgs url output_dir bitrate =
        tool ++ jsArgs ++
          ["-x", "--audio-format", "mp3",
           "--audio-quality", qualityOf bitrate,
           "-o", pathJoin output_dir
             "%(playlist_index)02d - %(artist,Unknown)s - %(title)s.%(ext)s",
           "--embed-metadata", "--newline", "--progress", "--no-mtime",
           url]) ∧
    (∀ deno node bun : Bool,
      get_js_runtime_args deno node bun = [] ∨
      get_js_runtime_args deno node bun = ["--js-runtimes", "node"] ∨
      get_js_runtime_args deno node bun = ["--js-runtimes", "bun"]) := by
  refine ⟨fun _ _ _ _ _ => rfl, ?_⟩
  intro deno node bun
  cases deno <;> cases node <;> cases bun <;> simp [get_js_runtime_args]

/-- Claim C8: `_progress_set_percent` stores the clamp
`max(0.0, min(100.0, value))`, and consequently the stored progress value
stays in `[0, 100]` after any sequence of progress operations. -/
theorem progress_clamp_spec :
    (∀ s v, progress_set_percent s v =
      ⟨.determinate, max 0 (min 100 v)⟩) ∧
    (∀ ops, 0 ≤ (progressRun ops).value ∧ (progressRun ops).value ≤ 100) := by
  refine ⟨fun _ _ => rfl, ?_⟩
  have hstep : ∀ s op, 0 ≤ s.value ∧ s.value ≤ 100 →
      0 ≤ (progressStep s op).value ∧ (progressStep s op).value ≤ 100 := by
    intro s op h
    cases op with
    | reset => exact h
    | setPercent v =>
      simp only [progressStep, progress_set_percent]
      exact ⟨le_max_left 0 _, max_le (by norm_num) (min_le_left _ _)⟩
    | done =>
      simp only [progressStep, progress_done]
      norm_num
  have hrun : ∀ (ops : List ProgressOp) (s : Progress),
      0 ≤ s.value ∧ s.value ≤ 100 →
      0 ≤ (ops.foldl progressStep s).value ∧
        (ops.foldl progressStep s).value ≤ 100 := by
    intro ops
    induction ops with
    | nil => intro s h; exact h
    | cons op rest ih => intro s h; exact ih _ (hstep s op h)
  intro ops
  exact hrun ops progressInit (by constructor <;> norm_num [progressInit])

/-- Claim C10: persisting the output directory merges the loaded
configuration with the `output_dir` key, leaving every other stored key
unchanged. -/
theorem persistOutputDir_preserves_other_keys
    (cfg : List (String × Json)) (path k : String) (h : k ≠ "output_dir") :
    jsonLookup k (persistOutputDir cfg path) = jsonLookup k cfg :=
  jsonLookup_jsonInsert_ne cfg k "output_dir" (.str path) (Ne.symm h)

theorem persistOutputDir_preserves_other_keys_witness :
    jsonLookup "theme" (persistOutputDir [("theme", Json.str "dark")] "/music")
      = jsonLookup "theme" [("theme", Json.str "dark")] :=
  persistOutputDir_preserves_other_keys [("theme", Json.str "dark")] "/music"
    "theme" (by decide)

/-! ### Lemmas for the progress-line parser -/

theorem digit_not_space {c : Char} (h : isDigitChar c = true) :
    isSpaceChar c = false := by
  simp only [isDigitChar, ndRunStarts, List.any_cons, List.any_nil,
    Bool.or_eq_true, Bool.and_eq_true, decide_eq_true_eq, Bool.false_eq_true,
    or_false] at h
  simp only [isSpaceChar, decide_eq_false_iff_not]
  rcases h with h|h|h|h|h|h|h|h|h|h|h|h|h|h|h|h|h|h|h|h|h|h|h|h|h|h|h|h|h|h|h|h|h|h|h|h|h|h|h|h|h|h|h|h|h|h|h|h|h|h|h|h|h|h|h|h|h|h|h|h|h|h|h|h|h|h
  all_goals omega

theorem space_not_digit {c : Char} (h : isSpaceChar c = true) :
    isDigitChar c = false := by
  cases hd : isDigitChar c
  · rfl
  · rw [digit_not_space hd] at h
    exact absurd h (by decide)

theorem space_ne_dot {c : Char} (h : isSpaceChar c = true) : c ≠ '.' := by
  rintro rfl
  exact absurd h (by decide)

theorem dropPrefixOf_append (p r : List Char) :
    dropPrefixOf p (p ++ r) = some r := by
  induction p with
  | nil => rfl
  | cons c cs ih => simp [dropPrefixOf, ih]

theorem dropPrefixOf_eq_some {p l r : List Char}
    (h : dropPrefixOf p l = some r) : l = p ++ r := by
  induction p generalizing l with
  | nil =>
    simp only [dropPrefixOf, Option.some.injEq] at h
    simp [h]
  | cons c cs ih =>
    cases l with
    | nil => exact absurd h (by simp [dropPrefixOf])
    | cons d ds =>
      simp only [dropPrefixOf] at h
      by_cases hc : c = d
      · rw [if_pos hc] at h
        subst hc
        simp [ih h]
      · rw [if_neg hc] at h
        exact absurd h (by simp)

theorem dropWhile_append_all {p : Char → Bool} {xs : List Char}
    (ys : List Char) (h : ∀ x ∈ xs, p x = true) :
    (xs ++ ys).dropWhile p = ys.dropWhile p := by
  induction xs with
  | nil => rfl
  | cons x xs ih =>
    simp only [List.cons_append, List.dropWhile_cons]
    rw [if_pos (h x (by simp))]
    exact ih fun y hy => h y (by simp [hy])

theorem takeWhile_append_all {p : Char → Bool} {xs : List Char}
    (ys : List Char) (h : ∀ x ∈ xs, p x = true) :
    (xs ++ ys).takeWhile p = xs ++ ys.takeWhile p := by
  induction xs with
  | nil => rfl
  | cons x xs ih =>
    simp only [List.cons_append, List.takeWhile_cons]
    rw [if_pos (h x (by simp))]
    simp [ih fun y hy => h y (by simp [hy])]

theorem dropWhile_cons_neg {p : Char → Bool} {x : Char} (xs : List Char)
    (h : p x = false) : (x :: xs).dropWhile p = x :: xs := by
  simp [List.dropWhile_cons, h]

theorem takeWhile_cons_neg {p : Char → Bool} {x : Char} (xs : List Char)
    (h : p x = false) : (x :: xs).takeWhile p = [] := by
  simp [List.takeWhile_cons, h]

theorem tailPercent_of (ws post : List Char)
    (h : ∀ c ∈ ws, isSpaceChar c = true) :
    tailPercent (ws ++ '%' :: post) = true := by
  simp only [tailPercent]
  rw [dropWhile_append_all _ h, dropWhile_cons_neg _ (by decide)]
  simp

theorem tailPercent_eq_true {r : List Char} (h : tailPercent r = true) :
    ∃ ws post, r = ws ++ '%' :: post ∧ ∀ c ∈ ws, isSpaceChar c = true := by
  simp only [tailPercent] at h
  cases hd : r.dropWhile isSpaceChar with
  | nil => rw [hd] at h; exact absurd h (by decide)
  | cons c rest =>
    simp only [hd] at h
    have hc : c = '%' := of_decide_eq_true h
    subst hc
    refine ⟨r.takeWhile isSpaceChar, rest, ?_, ?_⟩
    · conv_lhs => rw [← List.takeWhile_append_dropWhile isSpaceChar r]
      rw [hd]
    · exact fun c hcm => List.mem_takeWhile_imp hcm

theorem tryMatchAt_sound {l ds fs : List Char}
    (h : tryMatchAt l = some (ds, fs)) :
    ∃ ws1 ws2 post : List Char,
      (∀ c ∈ ws1, isSpaceChar c = true) ∧ (∀ c ∈ ws2, isSpaceChar c = true) ∧
      ds ≠ [] ∧ (∀ c ∈ ds, isDigitChar c = true) ∧
      ((fs = [] ∧ l = dlTag ++ ws1 ++ ds ++ ws2 ++ '%' :: post) ∨
       (fs ≠ [] ∧ (∀ c ∈ fs, isDigitChar c = true) ∧
         l = dlTag ++ ws1 ++ ds ++ '.' :: fs ++ ws2 ++ '%' :: post)) := by
  cases hpre : dropPrefixOf dlTag l with
  | none => simp [tryMatchAt, hpre] at h
  | some r0 =>
    have hl : l = dlTag ++ r0 := dropPrefixOf_eq_some hpre
    simp only [tryMatchAt, hpre] at h
    by_cases hde : ((r0.dropWhile isSpaceChar).takeWhile isDigitChar).isEmpty = true
    · rw [if_pos hde] at h
      exact absurd h (by simp)
    · rw [if_neg hde] at h
      have hne : (r0.dropWhile isSpaceChar).takeWhile isDigitChar ≠ [] :=
        fun hnil => hde (List.isEmpty_iff.mpr hnil)
      have e1 : r0 = r0.takeWhile isSpaceChar ++ r0.dropWhile isSpaceChar :=
        (List.takeWhile_append_dropWhile _ _).symm
      have e2 : r0.dropWhile isSpaceChar =
          (r0.dropWhile isSpaceChar).takeWhile isDigitChar ++
            (r0.dropWhile isSpaceChar).dropWhile isDigitChar :=
        (List.takeWhile_append_dropWhile _ _).symm
      cases hr2 : (r0.dropWhile isSpaceChar).dropWhile isDigitChar with
      | nil => rw [hr2] at h; exact absurd h (by simp)
      | cons c r3 =>
        simp only [hr2] at h
        by_cases hc : c = '.'
        · rw [if_pos hc] at h
          subst hc
          by_cases hfe : (r3.takeWhile isDigitChar).isEmpty = true
          · rw [if_pos hfe] at h
            exact absurd h (by simp)
          · rw [if_neg hfe] at h
            by_cases htp : tailPercent (r3.dropWhile isDigitChar) = true
            · rw [if_pos htp] at h
              simp only [Option.some.injEq, Prod.mk.injEq] at h
              obtain ⟨hds, hfs⟩ := h
              obtain ⟨ws2, post, hr4, hws2⟩ := tailPercent_eq_true htp
              have e3 : r3 = r3.takeWhile isDigitChar ++ r3.dropWhile isDigitChar :=
                (List.takeWhile_append_dropWhile _ _).symm
              refine ⟨r0.takeWhile isSpaceChar, ws2, post,
                fun c hcm => List.mem_takeWhile_imp hcm, hws2,
                hds ▸ hne, ?_, Or.inr ⟨?_, ?_, ?_⟩⟩
              · intro c hcm
                exact List.mem_takeWhile_imp (hds ▸ hcm)
              · intro hfnil
                rw [← hfs] at hfnil
                exact hfe (List.isEmpty_iff.mpr hfnil)
              · intro c hcm
                exact List.mem_takeWhile_imp (hfs ▸ hcm)
              · rw [hl, e1]
                conv_lhs => rw [e2, hr2, e3, hr4]
                rw [← hds, ← hfs]
                simp [List.append_assoc]
            · rw [if_neg htp] at h
              exact absurd h (by simp)
        · rw [if_neg hc] at h
          by_cases htp : tailPercent (c :: r3) = true
          · rw [if_pos htp] at h
            simp only [Option.some.injEq, Prod.mk.injEq] at h
            obtain ⟨hds, hfs⟩ := h
            obtain ⟨ws2, post, hr4, hws2⟩ := tailPercent_eq_true htp
            refine ⟨r0.takeWhile isSpaceChar, ws2, post,
              fun c hcm => List.mem_takeWhile_imp hcm, hws2,
              hds ▸ hne, ?_, Or.inl ⟨hfs.symm, ?_⟩⟩
            · intro c hcm
              exact List.mem_takeWhile_imp (hds ▸ hcm)
            · rw [hl, e1]
              conv_lhs => rw [e2, hr2, hr4]
              rw [← hds]
              simp [List.append_assoc]
          · rw [if_neg htp] at h
            exact absurd h (by simp)

theorem searchMatch_sound {l ds fs : List Char}
    (h : searchMatch l = some (ds, fs)) :
    ∃ pre rest, l = pre ++ rest ∧ tryMatchAt rest = some (ds, fs) := by
  induction l with
  | nil => simp [searchMatch] at h
  | cons c cs ih =>
    simp only [searchMatch] at h
    cases htm : tryMatchAt (c :: cs) with
    | some r =>
      rw [htm] at h
      exact ⟨[], c :: cs, rfl, htm.trans h⟩
    | none =>
      rw [htm] at h
      obtain ⟨pre, rest, hsplit, hmatch⟩ := ih h
      exact ⟨c :: pre, rest, by simp [hsplit], hmatch⟩

theorem takeWhile_digit_after_number {tail0 : List Char}
    (h : (∃ ws2 post, tail0 = ws2 ++ '%' :: post ∧
            ∀ c ∈ ws2, isSpaceChar c = true) ∨
         (∃ r, tail0 = '.' :: r)) :
    tail0.takeWhile isDigitChar = [] ∧
    tail0.dropWhile isDigitChar = tail0 := by
  rcases h with ⟨ws2, post, rfl, hws2⟩ | ⟨r, rfl⟩
  · cases ws2 with
    | nil =>
      exact ⟨takeWhile_cons_neg _ (by decide), dropWhile_cons_neg _ (by decide)⟩
    | cons w ws2' =>
      have hw : isDigitChar w = false := space_not_digit (hws2 w (by simp))
      simp only [List.cons_append]
      exact ⟨takeWhile_cons_neg _ hw, dropWhile_cons_neg _ hw⟩
  · exact ⟨takeWhile_cons_neg _ (by decide), dropWhile_cons_neg _ (by decide)⟩

theorem tryMatchAt_complete (ws1 ds fsp ws2 post : List Char)
    (hws1 : ∀ c ∈ ws1, isSpaceChar c = true)
    (hws2 : ∀ c ∈ ws2, isSpaceChar c = true)
    (hds : ds ≠ []) (hdig : ∀ c ∈ ds, isDigitChar c = true)
    (hfsp : fsp = [] ∨
      ∃ fds, fsp = '.' :: fds ∧ fds ≠ [] ∧ ∀ c ∈ fds, isDigitChar c = true) :
    (tryMatchAt (dlTag ++ (ws1 ++ (ds ++ (fsp ++ (ws2 ++ '%' :: post)))))).isSome
      = true := by
  obtain ⟨d, ds', rfl⟩ : ∃ d ds', ds = d :: ds' := by
    cases ds with
    | nil => exact absurd rfl hds
    | cons d ds' => exact ⟨d, ds', rfl⟩
  have hd : isDigitChar d = true := hdig d (by simp)
  have htail : (fsp ++ (ws2 ++ '%' :: post)).takeWhile isDigitChar = [] ∧
      (fsp ++ (ws2 ++ '%' :: post)).dropWhile isDigitChar =
        fsp ++ (ws2 ++ '%' :: post) := by
    rcases hfsp with rfl | ⟨fds, rfl, hfne, hfdig⟩
    · exact takeWhile_digit_after_number (Or.inl ⟨ws2, post, rfl, hws2⟩)
    · exact takeWhile_digit_after_number (Or.inr ⟨fds ++ (ws2 ++ '%' :: post),
        by simp⟩)
  simp only [tryMatchAt, dropPrefixOf_append]
  rw [dropWhile_append_all _ hws1, List.cons_append,
    dropWhile_cons_neg _ (digit_not_space hd), List.takeWhile_cons, if_pos hd,
    takeWhile_append_all _ (fun c hc => hdig c (by simp [hc])), htail.1,
    List.dropWhile_cons, if_pos hd,
    dropWhile_append_all _ (fun c hc => hdig c (by simp [hc])), htail.2]
  have hself : ¬ ((d :: (ds' ++ [])).isEmpty = true) := by simp
  rw [if_neg hself]
  rcases hfsp with rfl | ⟨fds, rfl, hfne, hfdig⟩
  · cases ws2 with
    | nil =>
      simp only [List.nil_append]
      rw [if_neg (show ('%' : Char) ≠ '.' by decide)]
      rw [show tailPercent ('%' :: post) = true from
        tailPercent_of [] post (by simp)]
      simp
    | cons w ws2' =>
      simp only [List.nil_append, List.cons_append]
      rw [if_neg (space_ne_dot (hws2 w (by simp)))]
      rw [show tailPercent (w :: (ws2' ++ '%' :: post)) = true from by
        rw [← List.cons_append]
        exact tailPercent_of (w :: ws2') post hws2]
      simp
  · simp only [List.cons_append]
    rw [if_pos trivial]
    obtain ⟨f, fds', rfl⟩ : ∃ f fds', fds = f :: fds' := by
      cases fds with
      | nil => exact absurd rfl hfne
      | cons f fds' => exact ⟨f, fds', rfl⟩
    have hf : isDigitChar f = true := hfdig f (by simp)
    have htail2 : (ws2 ++ '%' :: post).takeWhile isDigitChar = [] ∧
        (ws2 ++ '%' :: post).dropWhile isDigitChar = ws2 ++ '%' :: post :=
      takeWhile_digit_after_number (Or.inl ⟨ws2, post, rfl, hws2⟩)
    rw [List.cons_append, List.takeWhile_cons, if_pos hf,
      takeWhile_append_all _ (fun c hc => hfdig c (by simp [hc])), htail2.1]
    have hfself : ¬ ((f :: (fds' ++ [])).isEmpty = true) := by simp
    rw [if_neg hfself]
    rw [List.dropWhile_cons, if_pos hf,
      dropWhile_append_all _ (fun c hc => hfdig c (by simp [hc])), htail2.2]
    rw [tailPercent_of ws2 post hws2]
    simp

theorem searchMatch_isSome_of_suffix (pre rest : List Char)
    (h : (tryMatchAt rest).isSome = true) :
    (searchMatch (pre ++ rest)).isSome = true := by
  induction pre with
  | nil =>
    cases rest with
    | nil => rw [show tryMatchAt [] = none from rfl] at h; exact absurd h (by decide)
    | cons c cs =>
      simp only [List.nil_append, searchMatch]
      cases htm : tryMatchAt (c :: cs) with
      | some r => simp
      | none => rw [htm] at h; exact absurd h (by decide)
  | cons c pre' ih =>
    simp only [List.cons_append, searchMatch]
    cases htm : tryMatchAt (c :: (pre' ++ rest)) with
    | some r => simp
    | none => simpa using ih

/-- Claim C1: `_parse_progress_line` returns a percentage exactly for the
lines matching the `[download] <number>%` pattern (the tag, optional
whitespace, an integer with optional fraction, optional whitespace, a
percent sign, anywhere in the line, per `re.search`, with `\d`/`\s` the
Unicode character classes of Python `re`), the returned value is the
numeric value of a pattern occurrence in the line, `None` is returned for
every other line, and on the two spec examples the result is 45.2 and
100.0. -/
theorem parse_progress_line_spec :
    (∀ line : String,
      (parse_progress_line line).isSome = true ↔
        matchesDownloadPattern line.toList) ∧
    (∀ (line : String) (v : ℚ),
      parse_progress_line line = some v → matchesValueAt line.toList v) ∧
    parse_progress_line "[download] 45.2% of 5.00MiB at 1.20MiB/s ETA 00:03"
      = some (45.2 : ℚ) ∧
    parse_progress_line "[download] 100% of 1.20MiB in 00:00"
      = some (100 : ℚ) := by
  refine ⟨?_, ?_, ?_, ?_⟩
  case refine_3 =>
    have h1 : searchMatch
        ("[download] 45.2% of 5.00MiB at 1.20MiB/s ETA 00:03").toList
          = some (['4', '5'], ['2']) := by decide
    simp only [parse_progress_line, h1, Option.map_some', ratOfMatch,
      show digitsToNat ['4', '5'] = 45 from rfl,
      show digitsToNat ['2'] = 2 from rfl,
      show (['2'] : List Char).length = 1 from rfl, Option.some.injEq]
    norm_num
  case refine_4 =>
    have h1 : searchMatch ("[download] 100% of 1.20MiB in 00:00").toList
        = some (['1', '0', '0'], []) := by decide
    simp only [parse_progress_line, h1, Option.map_some', ratOfMatch,
      show digitsToNat ['1', '0', '0'] = 100 from rfl,
      show digitsToNat [] = 0 from rfl,
      show ([] : List Char).length = 0 from rfl, Option.some.injEq]
    norm_num
  case refine_2 =>
    intro line v h
    rw [parse_progress_line] at h
    cases hs : searchMatch line.toList with
    | none => rw [hs] at h; exact absurd h (by simp)
    | some p =>
      obtain ⟨ds, fs⟩ := p
      rw [hs, Option.map_some', Option.some.injEq] at h
      obtain ⟨pre, rest, hsplit, hmatch⟩ := searchMatch_sound hs
      obtain ⟨ws1, ws2, post, hws1, hws2, hne, hdig, hshape⟩ :=
        tryMatchAt_sound hmatch
      rcases hshape with ⟨hfs, heq⟩ | ⟨hfs, hfdig, heq⟩
      · refine ⟨pre, ws1, ds, [], ws2, post,
          by rw [hsplit, heq]; simp [List.append_assoc],
          hws1, hws2, hne, hdig, Or.inl ⟨rfl, ?_⟩⟩
        rw [← h, hfs]
      · exact ⟨pre, ws1, ds, '.' :: fs, ws2, post,
          by rw [hsplit, heq]; simp [List.append_assoc],
          hws1, hws2, hne, hdig, Or.inr ⟨fs, rfl, hfs, hfdig, h.symm⟩⟩
  intro line
  constructor
  · intro h
    have hsm : (searchMatch line.toList).isSome = true := by
      rw [parse_progress_line] at h
      cases hs : searchMatch line.toList with
      | none => rw [hs] at h; exact absurd h (by decide)
      | some p => rfl
    obtain ⟨⟨ds, fs⟩, hsome⟩ := Option.isSome_iff_exists.mp hsm
    obtain ⟨pre, rest, hsplit, hmatch⟩ := searchMatch_sound hsome
    obtain ⟨ws1, ws2, post, hws1, hws2, hne, hdig, hshape⟩ :=
      tryMatchAt_sound hmatch
    rcases hshape with ⟨hfs, heq⟩ | ⟨hfs, hfdig, heq⟩
    · exact ⟨pre, ws1, ds, [], ws2, post,
        by rw [hsplit, heq]; simp [List.append_assoc],
        hws1, hws2, hne, hdig, Or.inl rfl⟩
    · exact ⟨pre, ws1, ds, '.' :: fs, ws2, post,
        by rw [hsplit, heq]; simp [List.append_assoc],
        hws1, hws2, hne, hdig, Or.inr ⟨fs, rfl, hfs, hfdig⟩⟩
  · rintro ⟨pre, ws1, ds, fsp, ws2, post, heq, hws1, hws2, hne, hdig, hfsp⟩
    have h2 : line.toList =
        pre ++ (dlTag ++ (ws1 ++ (ds ++ (fsp ++ (ws2 ++ '%' :: post))))) := by
      rw [heq]; simp [List.append_assoc]
    have hc := tryMatchAt_complete ws1 ds fsp ws2 post hws1 hws2 hne hdig hfsp
    have hs := searchMatch_isSome_of_suffix pre _ hc
    rw [parse_progress_line, h2]
    cases hsx : searchMatch
        (pre ++ (dlTag ++ (ws1 ++ (ds ++ (fsp ++ (ws2 ++ '%' :: post)))))) with
    | none => rw [hsx] at hs; exact absurd hs (by decide)
    | some p => simp [hsx]

theorem parse_progress_line_spec_witness :
    matchesValueAt
      ("[download] 45.2% of 5.00MiB at 1.20MiB/s ETA 00:03").toList
      (45.2 : ℚ) :=
  parse_progress_line_spec.2.1
    "[download] 45.2% of 5.00MiB at 1.20MiB/s ETA 00:03" (45.2 : ℚ)
    parse_progress_line_spec.2.2.1

end PlaylistMP3
